import Mathlib

/-!
Shallow embedding of the eng-server core (Go) for checking its natural-language
specification: the chess clock (`pkg/chess/clock.go`), the game session
(`pkg/game/game.go`), the manager (`pkg/manager/manager.go`), the engine pool
(`pkg/engine/pool.go`), the event publisher (`pkg/events/publisher.go`) and the
connection hub (`pkg/server/hub.go`).

Machine integers (Go `int64` milliseconds) are modelled as `Int`; the monotonic
clock instants handed to time-dependent operations are explicit `Int` ("now")
parameters, with `time.Since(startTime)` becoming `now - startTime`.  Channels
that are written non-blockingly and never drained inside the modelled operation
alphabet are modelled as bounded lists of the successfully delivered values.
Fallible Go calls become `Option`.

The file is organised as definitions first, theorems second.
-/

namespace EngServer

namespace Chess

/-- `internal/color/color.go` colors `w` and `b`. -/
inductive Color
| white
| black
deriving DecidableEq, Repr

/-- `Color.Opp` from `internal/color/color.go`: the involution on colors. -/
def Color.Opp : Color → Color
| .white => .black
| .black => .white

/-- `TimingMethod` from `clock.go`. -/
inductive TimingMethod
| increment
| delay
| bronstein
deriving DecidableEq, Repr

/-- `TimeControl` from `clock.go` (times and increments in milliseconds). -/
structure TimeControl where
  WhiteTime : Int
  BlackTime : Int
  WhiteIncrement : Int
  BlackIncrement : Int
  Timing : TimingMethod
  MovesPerControl : Nat
deriving DecidableEq, Repr

/-- `Clock` state from `clock.go`.  `startTime` is the monotonic instant
recorded by `Start`/`Switch`; `timeupSent` is the list of values successfully
delivered on the capacity-one `timeupChan` (no receiver occurs inside the
modelled operations, so a second non-blocking send always finds the buffer
full and is dropped). -/
structure Clock where
  whiteTimeMs : Int
  blackTimeMs : Int
  whiteIncrement : Int
  blackIncrement : Int
  activeColor : Color
  timingMethod : TimingMethod
  movesPerControl : Nat
  moveCount : Nat
  startTime : Int
  isRunning : Bool
  timeupSent : List Color
deriving DecidableEq, Repr

/-- `NewClock` from `clock.go` lines 71-83: white starts active, clock stopped,
timeup channel empty. -/
def NewClock (tc : TimeControl) : Clock :=
  { whiteTimeMs := tc.WhiteTime
    blackTimeMs := tc.BlackTime
    whiteIncrement := tc.WhiteIncrement
    blackIncrement := tc.BlackIncrement
    activeColor := .white
    timingMethod := tc.Timing
    movesPerControl := tc.MovesPerControl
    moveCount := 0
    startTime := 0
    isRunning := false
    timeupSent := [] }

/-- Non-blocking send on the capacity-one timeup channel with no receiver in
the modelled alphabet: delivered only when the buffer is empty. -/
def sendTimeup (sent : List Color) (c : Color) : List Color :=
  if sent = [] then [c] else sent

/-- `Clock.updateTime` from `clock.go` lines 142-167: subtract elapsed time
from the active side; when the result is ≤ 0, send that color on the timeup
channel (non-blocking), clamp the side to 0 and stop the clock. -/
def Clock.updateTime (c : Clock) (now : Int) : Clock :=
  let elapsed := now - c.startTime
  let c1 :=
    if c.activeColor = .white then
      { c with whiteTimeMs := c.whiteTimeMs - elapsed }
    else
      { c with blackTimeMs := c.blackTimeMs - elapsed }
  if (c1.activeColor = .white ∧ c1.whiteTimeMs ≤ 0) ∨
      (c1.activeColor = .black ∧ c1.blackTimeMs ≤ 0) then
    let c2 := { c1 with timeupSent := sendTimeup c1.timeupSent c1.activeColor }
    let c3 :=
      if c2.activeColor = .white then { c2 with whiteTimeMs := 0 }
      else { c2 with blackTimeMs := 0 }
    { c3 with isRunning := false }
  else
    c1

/-- `Clock.Start` from `clock.go` lines 86-98 (the spawned ticker goroutine is
outside the modelled alphabet). -/
def Clock.Start (c : Clock) (now : Int) : Clock :=
  if c.isRunning then c
  else { c with startTime := now, isRunning := true }

/-- `Clock.Stop` from `clock.go` lines 101-111. -/
def Clock.Stop (c : Clock) (now : Int) : Clock :=
  if c.isRunning then
    let c1 := c.updateTime now
    { c1 with isRunning := false }
  else c

/-- The part of `Clock.Switch` (`clock.go` lines 122-138) after the initial
conditional settle, kept faithful to the source: under increment timing the
white branch adds the increment to white's stored time, while the black branch
performs `blackIncrement += blackIncrement` (source line 126); then the active
color flips, the move counter advances when white becomes active again, and a
still-running clock restarts its start instant. -/
def Clock.switchTail (c1 : Clock) (now : Int) : Clock :=
  let c2 :=
    if c1.timingMethod = .increment then
      if c1.activeColor = .white then
        { c1 with whiteTimeMs := c1.whiteTimeMs + c1.whiteIncrement }
      else
        { c1 with blackIncrement := c1.blackIncrement + c1.blackIncrement }
    else c1
  let c3 := { c2 with activeColor := c2.activeColor.Opp }
  let c4 :=
    if c3.activeColor = .white then { c3 with moveCount := c3.moveCount + 1 }
    else c3
  if c4.isRunning then { c4 with startTime := now } else c4

/-- `Clock.Switch` from `clock.go` lines 114-139: settle elapsed time into the
active side when running, then apply `switchTail`. -/
def Clock.Switch (c : Clock) (now : Int) : Clock :=
  (if c.isRunning then c.updateTime now else c).switchTail now

/-- `Clock.GetRemainingTime` from `clock.go` lines 170-197: subtract elapsed
time from the running active side, then clamp both values at zero.  Returned
pair is (white, black). -/
def Clock.GetRemainingTime (c : Clock) (now : Int) : Int × Int :=
  let whiteTime := c.whiteTimeMs
  let blackTime := c.blackTimeMs
  let p :=
    if c.isRunning then
      let elapsed := now - c.startTime
      if c.activeColor = .white then (whiteTime - elapsed, blackTime)
      else (whiteTime, blackTime - elapsed)
    else (whiteTime, blackTime)
  ((if p.1 < 0 then 0 else p.1), (if p.2 < 0 then 0 else p.2))

/-- `Clock.IsTimeUp` from `clock.go` lines 200-208. -/
def Clock.IsTimeUp (c : Clock) (col : Color) : Bool :=
  if col = .white then decide (c.whiteTimeMs ≤ 0) else decide (c.blackTimeMs ≤ 0)

/-- The stored remaining milliseconds of one side. -/
def Clock.storedOf (c : Clock) : Color → Int
| .white => c.whiteTimeMs
| .black => c.blackTimeMs

/-- The external clock operations quantified over by the specification's
clock properties. -/
inductive ClockOp
| start
| stop
| switch
deriving DecidableEq, Repr

/-- Apply one clock operation at a monotonic instant `now`. -/
def Clock.applyOp (c : Clock) : ClockOp → Int → Clock
| .start, now => c.Start now
| .stop, now => c.Stop now
| .switch, now => c.Switch now

/-- Apply a timed sequence of clock operations. -/
def Clock.applyOps (c : Clock) : List (ClockOp × Int) → Clock
| [] => c
| (k, now) :: rest => (c.applyOp k now).applyOps rest

/-- A timed operation sequence is chronological from instant `t`: instants are
nondecreasing (the Go source reads a monotonic clock). -/
def ChronoFrom : Int → List (ClockOp × Int) → Bool
| _, [] => true
| t, (_, now) :: rest => decide (t ≤ now) && ChronoFrom now rest

/-- The concrete increment-timing time control used in concrete evaluations:
1000 ms per side, 100 ms increment per side. -/
def tcIncrement : TimeControl :=
  { WhiteTime := 1000
    BlackTime := 1000
    WhiteIncrement := 100
    BlackIncrement := 100
    Timing := .increment
    MovesPerControl := 0 }

/-- Invariant used for the timeup-channel analysis: at most one value was ever
delivered; while nothing has been delivered both sides still hold strictly
positive stored time; the configured increments are non-negative. -/
def FlagInv (c : Clock) : Prop :=
  c.timeupSent.length ≤ 1 ∧
  (c.timeupSent = [] → 0 < c.whiteTimeMs ∧ 0 < c.blackTimeMs) ∧
  0 ≤ c.whiteIncrement ∧ 0 ≤ c.blackIncrement

/-- Invariant for the non-negativity analysis: stored times and configured
increments are non-negative. -/
def NonnegInv (c : Clock) : Prop :=
  0 ≤ c.whiteTimeMs ∧ 0 ≤ c.blackTimeMs ∧
  0 ≤ c.whiteIncrement ∧ 0 ≤ c.blackIncrement

end Chess

namespace Game

open Chess

/-- Rules-library position, modelled from the spec: the external chess-rules
library owns the position (FEN plus move list); only its recorded move list
matters to the claims checked here. -/
structure Position where
  moves : List String
deriving DecidableEq, Repr

/-- Modelled from the spec: the rules library's `PushMove` performs legality
checking and may fail with `InvalidMove`; on success the move is recorded, on
failure the position is unchanged and an error is returned.  The legality
judgment itself is the library's and is abstracted as the parameter `legal`. -/
def PushMove (legal : Position → String → Bool) (p : Position) (mv : String) :
    Option Position :=
  if legal p mv then some { moves := p.moves ++ [mv] } else none

/-- The session state touched by `Game.ProcessMove`: the clock and the
rules-library position. -/
structure GameSt where
  clock : Clock
  position : Position
deriving DecidableEq, Repr

/-- `Game.ProcessMove` from `game.go` lines 85-111, faithful to the source
order: `s.Clock.Switch()` runs first, then `s.Game.PushMove(move, nil)` whose
returned error is discarded, and the function returns `nil` unconditionally.
The second component is the Go error (`none` = nil). -/
def ProcessMove (legal : Position → String → Bool) (s : GameSt) (mv : String)
    (now : Int) : GameSt × Option String :=
  let clock := s.clock.Switch now
  let position :=
    match PushMove legal s.position mv with
    | some p => p
    | none => s.position
  ({ clock := clock, position := position }, none)

/-- A rules library that rejects every move, used to evaluate the
rejected-move path. -/
def rejectAll : Position → String → Bool := fun _ _ => false

/-- `Game.ProcessEngineMove` from `game.go` lines 126-132: the `movestogo`
value actually sent is `40 - len(mvs)/2`, unclamped. -/
def movestogoSent (mvs : List String) : Int :=
  40 - (↑(mvs.length / 2) : Int)

/-- The `movestogo` value the specification prescribes:
`max(1, 40 - floor(moveCount/2))`. -/
def movestogoSpec (mvs : List String) : Int :=
  max 1 (40 - (↑(mvs.length / 2) : Int))

/-- The `go` command string built by `Game.ProcessEngineMove` (`game.go`
lines 128-133): `fmt.Sprintf("go wtime %d btime %d movestogo %d", ...)`. -/
def goCommand (wTime bTime : Int) (mvs : List String) : String :=
  "go wtime " ++ toString wTime ++ " btime " ++ toString bTime ++
    " movestogo " ++ toString (movestogoSent mvs)

/-- Modelled from the spec: the external chess-rules library's `NewGame`
starts from the standard opening position ("" or "startpos" also mean the
standard opening per the interface table). -/
def standardOpeningFEN : String :=
  "rnbqkbnr/pppppppp/8/8/8/8/PPPPPPPP/RNBQKBNR w KQkq - 0 1"

/-- `CreateGame` from `game.go` lines 49-83, restricted to the choice of the
initial position: both branches of the `StartPostion` test construct
`chess.NewGame()`, so the supplied FEN string is never parsed or loaded. -/
def createGamePositionFEN (startPostion : String) : String :=
  if startPostion = "" ∨ startPostion = "startpos" then standardOpeningFEN
  else standardOpeningFEN

/-- The `GAME_CREATED` payload assembled by `Manager.CreateSession`
(`manager/manager.go` lines 142-152): the raw request string is echoed back
as `InitialFEN`. -/
structure GameCreatedPayload where
  gameID : String
  initialFEN : String
deriving DecidableEq, Repr

/-- Build the `GAME_CREATED` payload as `Manager.CreateSession` does. -/
def gameCreatedPayload (gameID fen : String) : GameCreatedPayload :=
  { gameID := gameID, initialFEN := fen }

end Game

namespace Session

/-- Lifecycle state relevant to `done`-channel safety: whether `done` has
been closed, and whether the repository still stores the session
(`Manager.RemoveSession`, `manager/manager.go` lines 167-177, never deletes
the session from the repository). -/
structure SessionLife where
  doneClosed : Bool
  inRepo : Bool
deriving DecidableEq, Repr

/-- Go `close` on the `done` channel: panics (modelled as `none`) when the
channel is already closed. -/
def closeDone (s : SessionLife) : Option SessionLife :=
  if s.doneClosed then none else some { s with doneClosed := true }

/-- `Game.Terminate` from `game.go` lines 208-220: closes `done`
unconditionally (line 209), then closes the engine and publishes
`GAME_TERMINATED`.  Neither of the latter steps changes the modelled state. -/
def Terminate (s : SessionLife) : Option SessionLife := closeDone s

/-- The manager's `GAME_TERMINATED` subscriber (`manager/manager.go` lines
60-70) calls `RemoveSession` on the event's game id; `RemoveSession` looks the
session up in the repository — still present, since it is never deleted — and
calls `Terminate` on it again. -/
def handleGameTerminated (s : SessionLife) : Option SessionLife :=
  if s.inRepo then Terminate s else some s

end Session

namespace Events

/-- `Publisher` from `publisher.go`: `subscribers` maps a topic to its handler
list; handlers are modelled by opaque numeric identifiers, and the per-topic
`append` is modelled by an association list in subscription order.  The
wildcard topic used by `SubscribeAll` is the literal key `*`. -/
structure Publisher where
  subscribers : List (String × Nat)
deriving DecidableEq, Repr

/-- The handler list stored for one topic, in subscription order. -/
def handlersFor (p : Publisher) (t : String) : List Nat :=
  (p.subscribers.filter (fun s => s.1 = t)).map (fun s => s.2)

/-- `Subscribe` from `publisher.go` lines 43-48. -/
def Subscribe (p : Publisher) (t : String) (h : Nat) : Publisher :=
  ⟨p.subscribers ++ [(t, h)]⟩

/-- `SubscribeAll` from `publisher.go` lines 63-69: appends the handler under
the special key `*`. -/
def SubscribeAll (p : Publisher) (h : Nat) : Publisher :=
  ⟨p.subscribers ++ [("*", h)]⟩

/-- The exported `Publish` from `publisher.go` lines 51-60: snapshots and
dispatches exactly `p.subscribers[event.Type]` — the handlers subscribed to
the event's own type.  The result is the list of handlers dispatched. -/
def Publish (p : Publisher) (t : String) : List Nat := handlersFor p t

/-- The unexported `publish` from `publisher.go` lines 72-87: dispatches the
event's own handlers and then the wildcard handlers.  No code in the
repository calls it. -/
def publishUnexported (p : Publisher) (t : String) : List Nat :=
  handlersFor p t ++ handlersFor p "*"

end Events

namespace Pool

/-- `Pool` state from `pool.go`: `engines` holds the identities stored in the
engines map, `available` the identities currently buffered in the available
channel (capacity `maxEngines`, FIFO), and `leased` is the bookkeeping list of
identities currently checked out, used to state the pool invariant. -/
structure PoolSt where
  engines : List String
  available : List String
  leased : List String
  maxEngines : Nat
deriving DecidableEq, Repr

/-- `Pool.Initialize` from `pool.go` lines 33-49 over `NewEnginePool` (lines
22-30): one engine is spawned per slot — represented by the list of their
fresh identities — each stored in the engines map and sent on the available
channel. -/
def initPool (ids : List String) : PoolSt :=
  { engines := ids, available := ids, leased := [], maxEngines := ids.length }

/-- `Pool.GetEngine` from `pool.go` lines 52-70: take the next identity from
the available channel; an empty channel models the 5-second timeout
(`PoolTimeout` error, state unchanged); an identity missing from the engines
map is consumed and an error returned. -/
def getEngine (p : PoolSt) : PoolSt × Option String :=
  match p.available with
  | [] => (p, none)
  | id :: rest =>
    if p.engines.contains id then
      ({ p with available := rest, leased := p.leased ++ [id] }, some id)
    else
      ({ p with available := rest }, none)

/-- `Pool.ReturnEngine` from `pool.go` lines 86-101: when the identity is in
the engines map, offer it back to the available channel non-blockingly (a full
channel logs a warning and drops the return); either way the lease ends. -/
def returnEngine (p : PoolSt) (id : String) : PoolSt :=
  if p.engines.contains id then
    if p.available.length < p.maxEngines then
      { p with available := p.available ++ [id], leased := p.leased.erase id }
    else
      { p with leased := p.leased.erase id }
  else p

/-- The pool operations quantified over by the claim. -/
inductive PoolOp
| get
| ret (id : String)
deriving DecidableEq, Repr

/-- Apply one pool operation (results of `getEngine` are discarded by the
state transition). -/
def applyPoolOp (p : PoolSt) : PoolOp → PoolSt
| .get => (getEngine p).1
| .ret id => returnEngine p id

/-- Apply a sequence of pool operations. -/
def applyPoolOps (p : PoolSt) : List PoolOp → PoolSt
| [] => p
| op :: rest => applyPoolOps (applyPoolOp p op) rest

/-- The claim's precondition on operation sequences: `ReturnEngine` is called
only with the identity of a currently-leased engine, once per lease. -/
def ValidPoolOps (p : PoolSt) : List PoolOp → Bool
| [] => true
| .get :: rest => ValidPoolOps (applyPoolOp p .get) rest
| .ret id :: rest =>
  p.leased.contains id && ValidPoolOps (applyPoolOp p (.ret id)) rest

/-- Inductive pool invariant: the channel contents and the leased identities
together are a permutation of the engines map's keys, which are distinct, and
the configured capacity is the map's size. -/
def PoolInv (p : PoolSt) : Prop :=
  (p.available ++ p.leased).Perm p.engines ∧ p.engines.Nodup ∧
  p.maxEngines = p.engines.length

end Pool

namespace Hub

/-- The two hub maps the claim is about (`hub.go` lines 25-42):
`gameConnections` maps a game id to its owning connection and `connGames`
maps a connection to the list of its game ids.  Connections are modelled by
numeric identifiers; a missing `connGames` key is Go's nil slice, i.e. `[]`. -/
structure HubSt where
  gameConnections : String → Option Nat
  connGames : Nat → List String

/-- `NewHub` (`hub.go` lines 45-63): both maps start empty. -/
def hubInit : HubSt := ⟨fun _ => none, fun _ => []⟩

/-- `Hub.associateConnectionWithGame` from `hub.go` lines 182-195: point the
game at the connection and append the game to the connection's list. -/
def associateConnectionWithGame (s : HubSt) (conn : Nat) (gameID : String) :
    HubSt :=
  { gameConnections := fun g => if g = gameID then some conn else s.gameConnections g
    connGames := fun c =>
      if c = conn then s.connGames c ++ [gameID] else s.connGames c }

/-- `Hub.removeGameAssociations` from `hub.go` lines 198-218: delete the
game-to-connection entry of every game owned by `conn`, then delete `conn`'s
own entry (a missing entry makes the whole call a no-op, which the pointwise
formulation reproduces). -/
def removeGameAssociations (s : HubSt) (conn : Nat) : HubSt :=
  { gameConnections := fun g =>
      if g ∈ s.connGames conn then none else s.gameConnections g
    connGames := fun c => if c = conn then [] else s.connGames c }

/-- `Hub.unregisterConnection` from `hub.go` lines 263-283: removes the game
associations first; the remaining work (connections set, queue close,
`CONNECTION_CLOSED` publish) does not touch the two maps. -/
def unregisterConnection (s : HubSt) (conn : Nat) : HubSt :=
  removeGameAssociations s conn

/-- The hub operations quantified over by the claim. -/
inductive HubOp
| assoc (conn : Nat) (gameID : String)
| removeAssoc (conn : Nat)
| unregister (conn : Nat)
deriving DecidableEq, Repr

/-- Apply one hub operation. -/
def applyHubOp (s : HubSt) : HubOp → HubSt
| .assoc c g => associateConnectionWithGame s c g
| .removeAssoc c => removeGameAssociations s c
| .unregister c => unregisterConnection s c

/-- Apply a sequence of hub operations. -/
def applyHubOps (s : HubSt) : List HubOp → HubSt
| [] => s
| op :: rest => applyHubOps (applyHubOp s op) rest

/-- The claim's precondition: each game id is associated at most once, i.e.
it is not yet present in the game-to-connection map when associated. -/
def ValidHubOps (s : HubSt) : List HubOp → Bool
| [] => true
| .assoc c g :: rest =>
  (s.gameConnections g).isNone && ValidHubOps (applyHubOp s (.assoc c g)) rest
| .removeAssoc c :: rest => ValidHubOps (applyHubOp s (.removeAssoc c)) rest
| .unregister c :: rest => ValidHubOps (applyHubOp s (.unregister c)) rest

/-- The mirror invariant between the two hub maps. -/
def HubInv (s : HubSt) : Prop :=
  ∀ c g, g ∈ s.connGames c ↔ s.gameConnections g = some c

end Hub

end EngServer

namespace EngServer

namespace Chess

theorem updateTime_flagInv (c : Clock) (now : Int) (h : FlagInv c) :
    FlagInv (c.updateTime now) := by
  obtain ⟨h1, h2, h3, h4⟩ := h
  unfold Clock.updateTime sendTimeup
  cases hac : c.activeColor <;> simp [hac] <;> split_ifs <;>
    simp_all [FlagInv]

theorem updateTime_delivery (c : Clock) (now : Int)
    (hse : c.timeupSent = []) (hne : (c.updateTime now).timeupSent ≠ []) :
    (c.updateTime now).timeupSent = [c.activeColor] ∧
    (c.updateTime now).storedOf c.activeColor = 0 ∧
    (c.updateTime now).isRunning = false := by
  unfold Clock.updateTime sendTimeup at hne ⊢
  cases hac : c.activeColor <;> simp only [hac] at hne ⊢ <;>
    split_ifs at hne ⊢ <;>
    simp_all [Clock.storedOf]

theorem switchTail_flagInv (c : Clock) (now : Int) (h : FlagInv c) :
    FlagInv (c.switchTail now) := by
  obtain ⟨h1, h2, h3, h4⟩ := h
  unfold Clock.switchTail
  cases hac : c.activeColor <;> cases hr : c.isRunning <;>
    cases htm : c.timingMethod <;>
    refine ⟨?_, fun hs => ?_, ?_, ?_⟩ <;>
    simp_all [Color.Opp] <;> omega

theorem applyOp_flagInv (c : Clock) (k : ClockOp) (now : Int) (h : FlagInv c) :
    FlagInv (c.applyOp k now) := by
  cases k with
  | start =>
    obtain ⟨h1, h2, h3, h4⟩ := h
    unfold Clock.applyOp Clock.Start
    split_ifs <;> exact ⟨h1, h2, h3, h4⟩
  | stop =>
    unfold Clock.applyOp Clock.Stop
    split_ifs with hr
    · obtain ⟨h1, h2, h3, h4⟩ := updateTime_flagInv c now h
      exact ⟨h1, h2, h3, h4⟩
    · exact h
  | switch =>
    unfold Clock.applyOp Clock.Switch
    split_ifs with hr
    · exact switchTail_flagInv _ now (updateTime_flagInv c now h)
    · exact switchTail_flagInv _ now h

theorem applyOps_flagInv (c : Clock) (ops : List (ClockOp × Int)) (h : FlagInv c) :
    FlagInv (c.applyOps ops) := by
  induction ops generalizing c with
  | nil => exact h
  | cons p rest ih =>
    cases p with
    | mk k now => exact ih _ (applyOp_flagInv c k now h)

/-- C4: over every timed sequence of `Start`, `Stop` and `Switch` operations
on a freshly created clock with positive initial times and non-negative
increments, (a) at most one value is ever delivered on the timeup channel,
and (b) whenever a settle (`updateTime`) delivers a value, the delivered value
is the active color, that side's stored remaining is clamped to exactly 0, the
clock stops, and both sides' stored times were still strictly positive just
before the settle — so the delivered side is the side whose stored remaining
first reached zero. -/
theorem clock_timeup_at_most_once_first_to_zero
    (tc : TimeControl) (t : Int) (ops : List (ClockOp × Int))
    (hw : 0 < tc.WhiteTime) (hb : 0 < tc.BlackTime)
    (hwi : 0 ≤ tc.WhiteIncrement) (hbi : 0 ≤ tc.BlackIncrement)
    (hch : ChronoFrom t ops = true) :
    ((NewClock tc).applyOps ops).timeupSent.length ≤ 1 ∧
    (∀ pre : List (ClockOp × Int), ∀ now : Int,
      ((NewClock tc).applyOps pre).timeupSent = [] →
      (((NewClock tc).applyOps pre).updateTime now).timeupSent ≠ [] →
      (((NewClock tc).applyOps pre).updateTime now).timeupSent =
          [((NewClock tc).applyOps pre).activeColor] ∧
        (((NewClock tc).applyOps pre).updateTime now).storedOf
          ((NewClock tc).applyOps pre).activeColor = 0 ∧
        (((NewClock tc).applyOps pre).updateTime now).isRunning = false ∧
        0 < ((NewClock tc).applyOps pre).storedOf
          ((NewClock tc).applyOps pre).activeColor ∧
        0 < ((NewClock tc).applyOps pre).storedOf
          ((NewClock tc).applyOps pre).activeColor.Opp) := by
  have hinv0 : FlagInv (NewClock tc) := by
    refine ⟨by simp [NewClock], fun _ => ⟨hw, hb⟩, hwi, hbi⟩
  constructor
  · exact (applyOps_flagInv _ ops hinv0).1
  · intro pre now hse hne
    have hinv := applyOps_flagInv _ pre hinv0
    have hpos := hinv.2.1 hse
    have hdel := updateTime_delivery _ now hse hne
    refine ⟨hdel.1, hdel.2.1, hdel.2.2, ?_, ?_⟩ <;>
      cases hac : ((NewClock tc).applyOps pre).activeColor <;>
        simp_all [Clock.storedOf, Color.Opp]

/-- Closed witness for the timeup theorem at a concrete clock and trace. -/
theorem clock_timeup_witness :
    ((NewClock tcIncrement).applyOps [(.start, 0), (.switch, 5)]).timeupSent.length ≤ 1 := by
  exact (clock_timeup_at_most_once_first_to_zero tcIncrement 0
    [(.start, 0), (.switch, 5)] (by decide) (by decide) (by decide) (by decide)
    (by decide)).1

theorem updateTime_nonneg (c : Clock) (now : Int) (h : NonnegInv c) :
    NonnegInv (c.updateTime now) := by
  obtain ⟨h1, h2, h3, h4⟩ := h
  unfold Clock.updateTime sendTimeup
  cases hac : c.activeColor <;> simp [hac] <;> split_ifs <;>
    simp_all [NonnegInv] <;> omega

theorem switchTail_nonneg (c : Clock) (now : Int) (h : NonnegInv c) :
    NonnegInv (c.switchTail now) := by
  obtain ⟨h1, h2, h3, h4⟩ := h
  unfold Clock.switchTail
  cases hac : c.activeColor <;> cases hr : c.isRunning <;>
    cases htm : c.timingMethod <;>
    simp_all [NonnegInv, Color.Opp] <;> omega

theorem applyOp_nonneg (c : Clock) (k : ClockOp) (now : Int) (h : NonnegInv c) :
    NonnegInv (c.applyOp k now) := by
  cases k with
  | start =>
    obtain ⟨h1, h2, h3, h4⟩ := h
    unfold Clock.applyOp Clock.Start
    split_ifs <;> exact ⟨h1, h2, h3, h4⟩
  | stop =>
    unfold Clock.applyOp Clock.Stop
    split_ifs with hr
    · obtain ⟨h1, h2, h3, h4⟩ := updateTime_nonneg c now h
      exact ⟨h1, h2, h3, h4⟩
    · exact h
  | switch =>
    unfold Clock.applyOp Clock.Switch
    split_ifs with hr
    · exact switchTail_nonneg _ now (updateTime_nonneg c now h)
    · exact switchTail_nonneg _ now h

theorem applyOps_nonneg (c : Clock) (ops : List (ClockOp × Int)) (h : NonnegInv c) :
    NonnegInv (c.applyOps ops) := by
  induction ops generalizing c with
  | nil => exact h
  | cons p rest ih =>
    cases p with
    | mk k now => exact ih _ (applyOp_nonneg c k now h)

/-- C8: (a) for every clock state — reachable or not, running or not, with
arbitrarily large elapsed time — both components returned by
`GetRemainingTime` are non-negative; (b) on every clock reachable from a
non-negative time control, the component returned for the side that is not
active equals that side's stored remaining exactly. -/
theorem getRemainingTime_nonneg_and_inactive_exact
    (tc : TimeControl) (ops : List (ClockOp × Int)) (now : Int)
    (hw : 0 ≤ tc.WhiteTime) (hb : 0 ≤ tc.BlackTime)
    (hwi : 0 ≤ tc.WhiteIncrement) (hbi : 0 ≤ tc.BlackIncrement) :
    (∀ d : Clock, ∀ m : Int,
      0 ≤ (d.GetRemainingTime m).1 ∧ 0 ≤ (d.GetRemainingTime m).2) ∧
    ((((NewClock tc).applyOps ops).activeColor = .white →
        (((NewClock tc).applyOps ops).GetRemainingTime now).2 =
          ((NewClock tc).applyOps ops).blackTimeMs) ∧
      (((NewClock tc).applyOps ops).activeColor = .black →
        (((NewClock tc).applyOps ops).GetRemainingTime now).1 =
          ((NewClock tc).applyOps ops).whiteTimeMs)) := by
  have hnn : NonnegInv ((NewClock tc).applyOps ops) :=
    applyOps_nonneg _ ops ⟨hw, hb, hwi, hbi⟩
  constructor
  · intro d m
    unfold Clock.GetRemainingTime
    split_ifs <;> simp_all <;> omega
  · obtain ⟨h1, h2, h3, h4⟩ := hnn
    constructor <;> intro hac <;>
      unfold Clock.GetRemainingTime <;>
      simp [hac] <;> split_ifs <;> simp_all <;> omega

/-- Closed witness for the remaining-time theorem at a concrete clock. -/
theorem getRemainingTime_witness :
    0 ≤ (((NewClock tcIncrement).applyOps [(.start, 0)]).GetRemainingTime 5000).1 := by
  exact ((getRemainingTime_nonneg_and_inactive_exact tcIncrement [(.start, 0)] 5000
    (by decide) (by decide) (by decide) (by decide)).1 _ 5000).1

/-- C1: On an increment clock started at instant 0, after white's move
(`Switch` at 0) and black's move (`Switch` at 10 ms), black's stored remaining
is `990 = 1000 - 10` — the black increment was never added to black's time
(the claimed value is `1000 - 10 + 100 = 1090`) — and the configured black
increment itself has doubled to 200 (source line 126 executes
`blackIncrement += blackIncrement`).  White's move, by contrast, did receive
its increment: white's stored remaining is `1100 = 1000 - 0 + 100`. -/
theorem switch_black_increment_doubling :
    ((NewClock tcIncrement).applyOps
        [(.start, 0), (.switch, 0), (.switch, 10)]).blackTimeMs = 990 ∧
    ((NewClock tcIncrement).applyOps
        [(.start, 0), (.switch, 0), (.switch, 10)]).blackTimeMs ≠ 1000 - 10 + 100 ∧
    ((NewClock tcIncrement).applyOps
        [(.start, 0), (.switch, 0), (.switch, 10)]).blackIncrement = 200 ∧
    ((NewClock tcIncrement).applyOps
        [(.start, 0), (.switch, 0), (.switch, 10)]).whiteTimeMs = 1100 := by
  decide

end Chess

namespace Game

open Chess

/-- C3: `ProcessMove` on a move rejected by the rules library: the returned
error is nil, the clock has nevertheless switched — the active color flipped
from white to black and white's stored time changed from 1000 to 1050
(settled 1000 - 50 elapsed, then wrongly granted the 100 ms increment) —
while the position is unchanged.  The claim requires an error, an unchanged
clock and an unchanged turn. -/
theorem processMove_rejected_consumes_clock :
    let s0 : GameSt :=
      { clock := (NewClock tcIncrement).applyOps [(.start, 0)], position := ⟨[]⟩ }
    (ProcessMove rejectAll s0 "e2e5" 50).2 = none ∧
    (ProcessMove rejectAll s0 "e2e5" 50).1.position = s0.position ∧
    s0.clock.activeColor = .white ∧
    (ProcessMove rejectAll s0 "e2e5" 50).1.clock.activeColor = .black ∧
    s0.clock.whiteTimeMs = 1000 ∧
    (ProcessMove rejectAll s0 "e2e5" 50).1.clock.whiteTimeMs = 1050 ∧
    (ProcessMove rejectAll s0 "e2e5" 50).1.clock ≠ s0.clock := by
  decide

/-- C5: with 82 recorded moves, the `movestogo` value actually formatted into
the `go` command is `-1`, whereas the specified value `max(1, 40 - 41)` is 1;
the command text sent to the engine is exactly
`go wtime 1000 btime 2000 movestogo -1`. -/
theorem movestogo_not_clamped :
    movestogoSent (List.replicate 82 "e2e4") = -1 ∧
    movestogoSpec (List.replicate 82 "e2e4") = 1 ∧
    movestogoSent (List.replicate 82 "e2e4") ≠
      movestogoSpec (List.replicate 82 "e2e4") ∧
    goCommand 1000 2000 (List.replicate 82 "e2e4") =
      "go wtime 1000 btime 2000 movestogo -1" := by
  decide

/-- C10: for every requested start position string, the position `CreateGame`
builds is the standard opening position — the custom FEN is never loaded —
while the `GAME_CREATED` payload echoes the raw request string back. -/
theorem createGame_ignores_custom_fen (startPostion gameID : String) :
    createGamePositionFEN startPostion = standardOpeningFEN ∧
    (gameCreatedPayload gameID startPostion).initialFEN = startPostion := by
  constructor
  · unfold createGamePositionFEN
    split_ifs <;> rfl
  · rfl

/-- Closed witness: a custom FEN request still yields the standard opening
position, and is echoed verbatim in the payload. -/
theorem createGame_ignores_custom_fen_witness :
    createGamePositionFEN "8/8/8/8/8/8/8/K6k w - - 0 1" = standardOpeningFEN ∧
    (gameCreatedPayload "game-1" "8/8/8/8/8/8/8/K6k w - - 0 1").initialFEN =
      "8/8/8/8/8/8/8/K6k w - - 0 1" :=
  createGame_ignores_custom_fen "8/8/8/8/8/8/8/K6k w - - 0 1" "game-1"

end Game

namespace Session

/-- C2: `Terminate` is not idempotent: on a live session still stored in the
repository, the first `Terminate` closes `done`; the `GAME_TERMINATED`
subscriber then runs `RemoveSession`, which finds the session (it is never
deleted from the repository) and calls `Terminate` again, which closes the
already-closed channel — a panic, modelled as `none`; a direct second
`Terminate` call panics the same way. -/
theorem terminate_double_close :
    Terminate ⟨false, true⟩ = some ⟨true, true⟩ ∧
    handleGameTerminated ⟨true, true⟩ = none ∧
    Terminate ⟨true, true⟩ = none := by
  decide

end Session

namespace Events

/-- C6: a handler registered through `SubscribeAll` is never dispatched by the
exported `Publish`: with one specific subscriber (handler 1 on
`GAME_CREATED`) and one wildcard subscriber (handler 7), publishing a
`GAME_CREATED` event dispatches exactly handler 1; handler 7 is dispatched
only by the unexported `publish`, which nothing in the repository calls. -/
theorem subscribeAll_missed_by_exported_publish :
    Publish (SubscribeAll (Subscribe ⟨[]⟩ "GAME_CREATED" 1) 7) "GAME_CREATED" = [1] ∧
    7 ∉ Publish (SubscribeAll (Subscribe ⟨[]⟩ "GAME_CREATED" 1) 7) "GAME_CREATED" ∧
    publishUnexported (SubscribeAll (Subscribe ⟨[]⟩ "GAME_CREATED" 1) 7)
      "GAME_CREATED" = [1, 7] := by
  decide

end Events

namespace Pool

theorem getEngine_inv (p : PoolSt) (h : PoolInv p) :
    PoolInv (applyPoolOp p .get) := by
  obtain ⟨hperm, hnd, hmax⟩ := h
  unfold applyPoolOp getEngine
  cases hav : p.available with
  | nil => exact ⟨by simpa [hav] using hperm, hnd, hmax⟩
  | cons id rest =>
    have hmem : id ∈ p.engines := by
      refine hperm.subset ?_
      simp [hav]
    have hc : p.engines.contains id = true := List.elem_eq_true_of_mem hmem
    dsimp only
    rw [if_pos hc]
    refine ⟨?_, hnd, hmax⟩
    have hp2 : ((rest ++ p.leased) ++ [id]).Perm (id :: (rest ++ p.leased)) :=
      List.perm_append_singleton id (rest ++ p.leased)
    have hp3 : (id :: (rest ++ p.leased)).Perm p.engines := by
      have he : (id :: rest) ++ p.leased = id :: (rest ++ p.leased) := by simp
      rw [← he]
      have hpe : p.available ++ p.leased = (id :: rest) ++ p.leased := by rw [hav]
      exact hpe ▸ hperm
    show (rest ++ (p.leased ++ [id])).Perm p.engines
    rw [← List.append_assoc]
    exact hp2.trans hp3

theorem returnEngine_inv (p : PoolSt) (id : String) (h : PoolInv p)
    (hid : id ∈ p.leased) : PoolInv (applyPoolOp p (.ret id)) := by
  obtain ⟨hperm, hnd, hmax⟩ := h
  unfold applyPoolOp returnEngine
  have hmem : id ∈ p.engines := by
    refine hperm.subset ?_
    simp [hid]
  have hc : p.engines.contains id = true := List.elem_eq_true_of_mem hmem
  have hlen : p.available.length + p.leased.length = p.engines.length := by
    have := hperm.length_eq
    simpa using this
  have hpos : 0 < p.leased.length := List.length_pos_of_mem hid
  have hroom : p.available.length < p.maxEngines := by omega
  dsimp only
  rw [if_pos hc, if_pos hroom]
  refine ⟨?_, hnd, hmax⟩
  have hl : p.leased.Perm (id :: p.leased.erase id) := List.perm_cons_erase hid
  have hp2 : (p.available ++ (id :: p.leased.erase id)).Perm
      (p.available ++ p.leased) := List.Perm.append_left p.available hl.symm
  show ((p.available ++ [id]) ++ p.leased.erase id).Perm p.engines
  have he : (p.available ++ [id]) ++ p.leased.erase id =
      p.available ++ (id :: p.leased.erase id) := by simp
  rw [he]
  exact hp2.trans hperm

theorem validPoolOps_inv (p : PoolSt) (ops : List PoolOp) (h : PoolInv p)
    (hv : ValidPoolOps p ops = true) : PoolInv (applyPoolOps p ops) := by
  induction ops generalizing p with
  | nil => exact h
  | cons op rest ih =>
    cases op with
    | get =>
      show PoolInv (applyPoolOps (applyPoolOp p .get) rest)
      exact ih _ (getEngine_inv p h) (by simpa [ValidPoolOps] using hv)
    | ret id =>
      simp only [ValidPoolOps, Bool.and_eq_true] at hv
      have hmem : id ∈ p.leased := List.mem_of_elem_eq_true hv.1
      show PoolInv (applyPoolOps (applyPoolOp p (.ret id)) rest)
      exact ih _ (returnEngine_inv p id h hmem) hv.2

/-- C7: starting from a pool initialised with distinct engine identities,
after every operation sequence in which `ReturnEngine` is only called with a
currently-leased identity (once per lease), the number of identities in the
available channel plus the number of leased engines equals the pool capacity,
and no identity appears in the available channel more than once. -/
theorem pool_invariant_holds (ids : List String) (ops : List PoolOp)
    (hnd : ids.Nodup) (hv : ValidPoolOps (initPool ids) ops = true) :
    (applyPoolOps (initPool ids) ops).available.length +
      (applyPoolOps (initPool ids) ops).leased.length =
      (applyPoolOps (initPool ids) ops).maxEngines ∧
    (applyPoolOps (initPool ids) ops).available.Nodup := by
  have h0 : PoolInv (initPool ids) := by
    refine ⟨by simp [initPool], hnd, rfl⟩
  obtain ⟨hperm, hnd2, hmax⟩ := validPoolOps_inv _ ops h0 hv
  constructor
  · have := hperm.length_eq
    simp only [List.length_append] at this
    omega
  · exact (hperm.symm.nodup hnd2).of_append_left

/-- Closed witness: a two-engine pool after one checkout and one return. -/
theorem pool_invariant_witness :
    (applyPoolOps (initPool ["e1", "e2"]) [.get, .ret "e1"]).available.length +
      (applyPoolOps (initPool ["e1", "e2"]) [.get, .ret "e1"]).leased.length =
      (applyPoolOps (initPool ["e1", "e2"]) [.get, .ret "e1"]).maxEngines ∧
    (applyPoolOps (initPool ["e1", "e2"]) [.get, .ret "e1"]).available.Nodup :=
  pool_invariant_holds ["e1", "e2"] [.get, .ret "e1"] (by decide) (by decide)

end Pool

namespace Hub

theorem associate_inv (s : HubSt) (conn : Nat) (gameID : String)
    (h : HubInv s) (hfresh : s.gameConnections gameID = none) :
    HubInv (associateConnectionWithGame s conn gameID) := by
  intro c g
  by_cases hg : g = gameID <;> by_cases hc : c = conn
  · subst hg; subst hc
    simp [associateConnectionWithGame]
  · subst hg
    have hnot : ¬ g ∈ s.connGames c := by
      intro hmem
      rw [(h c g).mp hmem] at hfresh
      exact Option.noConfusion hfresh
    simp [associateConnectionWithGame, hc, hnot, Ne.symm hc]
  · subst hc
    simp [associateConnectionWithGame, hg, h c g]
  · simp [associateConnectionWithGame, hg, hc, h c g]

theorem removeAssoc_inv (s : HubSt) (conn : Nat) (h : HubInv s) :
    HubInv (removeGameAssociations s conn) := by
  intro c g
  by_cases hc : c = conn
  · subst hc
    by_cases hm : g ∈ s.connGames c <;>
      simp [removeGameAssociations, hm, ← h c g]
  · by_cases hm : g ∈ s.connGames conn
    · have hgc : s.gameConnections g = some conn := (h conn g).mp hm
      have hnot : ¬ g ∈ s.connGames c := by
        intro hmem
        have h2 := (h c g).mp hmem
        rw [hgc] at h2
        injection h2 with h3
        exact hc h3.symm
      simp [removeGameAssociations, hm, hc, hnot]
    · simp [removeGameAssociations, hm, hc, h c g]

theorem validHubOps_inv (s : HubSt) (ops : List HubOp) (h : HubInv s)
    (hv : ValidHubOps s ops = true) : HubInv (applyHubOps s ops) := by
  induction ops generalizing s with
  | nil => exact h
  | cons op rest ih =>
    cases op with
    | assoc c g =>
      simp only [ValidHubOps, Bool.and_eq_true] at hv
      have hfresh : s.gameConnections g = none :=
        Option.isNone_iff_eq_none.mp hv.1
      show HubInv (applyHubOps (applyHubOp s (.assoc c g)) rest)
      exact ih _ (associate_inv s c g h hfresh) hv.2
    | removeAssoc c =>
      show HubInv (applyHubOps (applyHubOp s (.removeAssoc c)) rest)
      exact ih _ (removeAssoc_inv s c h) (by simpa [ValidHubOps] using hv)
    | unregister c =>
      show HubInv (applyHubOps (applyHubOp s (.unregister c)) rest)
      exact ih _ (removeAssoc_inv s c h) (by simpa [ValidHubOps] using hv)

/-- C9: from the empty hub, after every sequence of
`associateConnectionWithGame`, `removeGameAssociations` and
`unregisterConnection` operations in which each game id is associated at most
once, the set of game ids stored for a connection `c` in the
connection-to-games map is exactly the set of game ids whose
game-to-connection entry is `c`. -/
theorem hub_maps_mirror (ops : List HubOp)
    (hv : ValidHubOps hubInit ops = true) :
    ∀ c g, g ∈ (applyHubOps hubInit ops).connGames c ↔
      (applyHubOps hubInit ops).gameConnections g = some c := by
  refine validHubOps_inv hubInit ops ?_ hv
  intro c g
  simp [hubInit]

/-- Closed witness: associating one game and unregistering its connection. -/
theorem hub_maps_mirror_witness :
    ("g1" ∈ (applyHubOps hubInit [.assoc 1 "g1", .unregister 1]).connGames 1 ↔
      (applyHubOps hubInit [.assoc 1 "g1", .unregister 1]).gameConnections "g1" =
        some 1) :=
  hub_maps_mirror [.assoc 1 "g1", .unregister 1] (by decide) 1 "g1"

end Hub

end EngServer
